import Mathlib

/-!
Verification of the capture-to-PDF composition pipeline (src/utils/pdf.ts and
src/app/api/stagehand/main.ts) against its specification.

Conventions of the shallow embedding:
* JS strings are modelled as `List Char` (one entry per UTF-16 code unit);
  `text.slice(a, b)` becomes `jsSlice text a b`, `text[i]` becomes the
  one-character slice at `i`.
* JS numbers that the code only adds, multiplies, divides and compares are
  modelled as `ℚ`; byte values and indices as `Nat`.
* Loops whose index strictly increases are modelled by structural recursion
  on a fuel argument initialised so that it cannot run out before the loop's
  own exit condition fires; each such definition notes the invariant.
-/

/-! # Text wrapper (src/utils/pdf.ts, `wrapText`, lines 1108-1160) -/

/-- JS `text.slice(a, b)`: the characters of positions `[a, b)`, clamped to
the string like the JS built-in. -/
def jsSlice (text : List Char) (a b : Nat) : List Char :=
  (text.drop a).take (b - a)

/-- The inner loop of `wrapText`:
`while (end <= text.length && measureFn(text.slice(start, end)) <= maxWidth) end++`.
`end` starts at `start + 1` and increases by 1 each pass, so with initial fuel
`text.length - start` the fuel reaches 0 exactly when `end = text.length + 1`,
where the JS loop condition is false as well. -/
def growEndAux (measureFn : List Char → ℚ) (maxWidth : ℚ) (text : List Char)
    (start : Nat) : Nat → Nat → Nat
  | 0, e => e
  | fuel+1, e =>
    if e ≤ text.length ∧ measureFn (jsSlice text start e) ≤ maxWidth then
      growEndAux measureFn maxWidth text start fuel (e+1)
    else e

/-- The value of `end` after the inner loop of `wrapText`. -/
def growEnd (measureFn : List Char → ℚ) (maxWidth : ℚ) (text : List Char)
    (start : Nat) : Nat :=
  growEndAux measureFn maxWidth text start (text.length - start) (start+1)

/-- The URL separator class `[/?&#\-_.]` of the break regex in `wrapText`. -/
def isSepChar (c : Char) : Bool :=
  c == '/' || c == '?' || c == '&' || c == '#' || c == '-' || c == '_' || c == '.'

/-- The character class `[0-9A-Fa-f]` of the break regex in `wrapText`. -/
def isHexChar (c : Char) : Bool :=
  (decide ('0' ≤ c) && decide (c ≤ '9')) ||
    (decide ('a' ≤ c) && decide (c ≤ 'f')) ||
    (decide ('A' ≤ c) && decide (c ≤ 'F'))

/-- Whether position `i` of `s` holds a hex digit. -/
def hexAt (s : List Char) (i : Nat) : Bool :=
  match s.get? i with
  | some c => isHexChar c
  | none => false

/-- Whether a `%XX` percent-encoded triplet starts at position `i` of `s`. -/
def tripletAt (s : List Char) (i : Nat) : Bool :=
  match s.get? i with
  | some c => c == '%' && hexAt s (i+1) && hexAt s (i+2)
  | none => false

/-- The number of consecutive `%XX` triplets starting at position `i`: the
maximal (greedy) repetition count of `(?:%[0-9A-Fa-f]{2})+` at `i`. Each
triplet covers 3 positions of `s`, so fuel `s.length` can never run out
before the run ends. -/
def runLenAux (s : List Char) : Nat → Nat → Nat
  | 0, _ => 0
  | fuel+1, i => if tripletAt s i then runLenAux s fuel (i+3) + 1 else 0

/-- The maximal run of `%XX` triplets at position `i` of `s`. -/
def runLen (s : List Char) (i : Nat) : Nat := runLenAux s s.length i

/-- The lookahead `(?=[/?&#\-_.]|$)` of the break regex, tested at
position `p`: a separator character there, or the end of the string. -/
def lookaheadOk (s : List Char) (p : Nat) : Bool :=
  match s.get? p with
  | some c => isSepChar c
  | none => true

/-- Backtracking of the greedy `(?:%[0-9A-Fa-f]{2})+` before the lookahead:
repetition counts are tried from `j` downward, and the first count whose
lookahead holds wins (the regex engine shortens the greedy run one triplet
at a time until the lookahead matches). -/
def tryRun (s : List Char) (i : Nat) : Nat → Option Nat
  | 0 => none
  | j+1 => if lookaheadOk s (i + 3*(j+1)) then some (j+1) else tryRun s i j

/-- Whether the second alternative `(?:%[0-9A-Fa-f]{2})+(?=[/?&#\-_.]|$)` of
the break regex matches at position `i`; returns the repetition count. -/
def percentRunMatch (s : List Char) (i : Nat) : Option Nat :=
  tryRun s i (runLen s i)

/-- Whether the break regex `[/?&#\-_.]|(?:%[0-9A-Fa-f]{2})+(?=[/?&#\-_.]|$)`
matches at position `i` of `s` (alternatives tried left to right, as the JS
engine does); returns the match length. -/
def urlBreakMatchAt (s : List Char) (i : Nat) : Option Nat :=
  match s.get? i with
  | none => none
  | some c =>
    if isSepChar c then some 1
    else (percentRunMatch s i).map (fun n => 3*n)

/-- The `breakRe.exec` loop of `wrapText` fused with the engine's scan: from
position `p`, the engine tries the regex at each position in turn; a match of
length `L` at `i` sets `bestBreak := i + L` and resumes the scan at `i + L`
(the regex has no empty match, so `lastIndex` always advances). `best = 0`
stands for the initial JS `bestBreak = -1`: every match end is ≥ 1, so 0 is
never a match end. The scan position grows by at least 1 per step while
staying ≤ `s.length + 1`, so fuel `s.length + 1` cannot run out before the
scan passes the end of the string. -/
def lastBreakAux (s : List Char) : Nat → Nat → Nat → Nat
  | 0, _, best => best
  | fuel+1, p, best =>
    match s.get? p with
    | none => best
    | some c =>
      if isSepChar c then lastBreakAux s fuel (p+1) (p+1)
      else
        match percentRunMatch s p with
        | some n => lastBreakAux s fuel (p + 3*n) (p + 3*n)
        | none => lastBreakAux s fuel (p+1) best

/-- `bestBreak` after the `breakRe.exec` loop of `wrapText` over `s`
(0 standing for the JS `-1`, "no match"). -/
def lastBreak (s : List Char) : Nat := lastBreakAux s (s.length + 1) 0 0

/-- One iteration of the outer `while (start < text.length)` loop of
`wrapText`: the line pushed and the next value of `start`. In the overflow
branch the JS code pushes `text[start]`, the one-character slice at
`start`. -/
def wrapStep (measureFn : List Char → ℚ) (maxWidth : ℚ) (urlMode : Bool)
    (text : List Char) (start : Nat) : List Char × Nat :=
  let e := growEnd measureFn maxWidth text start
  let lineEnd := e - 1
  if lineEnd ≤ start then
    (jsSlice text start (start+1), start+1)
  else if urlMode then
    let segment := jsSlice text start lineEnd
    let bestBreak := lastBreak segment
    if 0 < bestBreak then
      (jsSlice text start (start + bestBreak), start + bestBreak)
    else
      (segment, lineEnd)
  else
    (jsSlice text start lineEnd, lineEnd)

/-- The outer loop of `wrapText`. `start` strictly increases every
iteration (see `wrapStep_start_lt`), so fuel `text.length` cannot run out
while `start < text.length`. -/
def wrapTextAux (measureFn : List Char → ℚ) (maxWidth : ℚ) (urlMode : Bool)
    (text : List Char) : Nat → Nat → List (List Char)
  | 0, _ => []
  | fuel+1, start =>
    if start < text.length then
      (wrapStep measureFn maxWidth urlMode text start).1 ::
        wrapTextAux measureFn maxWidth urlMode text fuel
          (wrapStep measureFn maxWidth urlMode text start).2
    else []

/-- `wrapText(text, maxWidth, measureFn, urlMode)` of src/utils/pdf.ts. -/
def wrapText (text : List Char) (maxWidth : ℚ) (measureFn : List Char → ℚ)
    (urlMode : Bool) : List (List Char) :=
  wrapTextAux measureFn maxWidth urlMode text text.length 0

theorem jsSlice_append_drop (text : List Char) {a b : Nat} (h : a ≤ b) :
    jsSlice text a b ++ text.drop b = text.drop a := by
  unfold jsSlice
  have hb : text.drop b = (text.drop a).drop (b - a) := by
    rw [List.drop_drop]
    congr 1
    omega
  rw [hb, List.take_append_drop]

theorem growEndAux_ge (measureFn : List Char → ℚ) (maxWidth : ℚ)
    (text : List Char) (start : Nat) :
    ∀ fuel e, e ≤ growEndAux measureFn maxWidth text start fuel e := by
  intro fuel
  induction fuel with
  | zero => intro e; exact Nat.le_refl e
  | succ fuel ih =>
    intro e
    unfold growEndAux
    split
    · exact Nat.le_trans (Nat.le_succ e) (ih (e+1))
    · exact Nat.le_refl e

theorem growEnd_ge (measureFn : List Char → ℚ) (maxWidth : ℚ)
    (text : List Char) (start : Nat) :
    start + 1 ≤ growEnd measureFn maxWidth text start :=
  growEndAux_ge measureFn maxWidth text start _ _

theorem growEndAux_stop (measureFn : List Char → ℚ) (maxWidth : ℚ)
    (text : List Char) (start : Nat) (fuel e : Nat)
    (h : ¬(e ≤ text.length ∧ measureFn (jsSlice text start e) ≤ maxWidth)) :
    growEndAux measureFn maxWidth text start fuel e = e := by
  cases fuel with
  | zero => rfl
  | succ fuel => unfold growEndAux; exact if_neg h

theorem wrapStep_start_lt (measureFn : List Char → ℚ) (maxWidth : ℚ)
    (urlMode : Bool) (text : List Char) (start : Nat) :
    start < (wrapStep measureFn maxWidth urlMode text start).2 := by
  unfold wrapStep
  dsimp only
  split
  · exact Nat.lt_succ_self start
  · rename_i hEnd
    split
    · split
      · rename_i hB
        omega
      · omega
    · omega

theorem wrapStep_fst_eq (measureFn : List Char → ℚ) (maxWidth : ℚ)
    (urlMode : Bool) (text : List Char) (start : Nat) :
    (wrapStep measureFn maxWidth urlMode text start).1 =
      jsSlice text start (wrapStep measureFn maxWidth urlMode text start).2 := by
  unfold wrapStep
  dsimp only
  split
  · rfl
  · split
    · split
      · rfl
      · rfl
    · rfl

theorem wrapTextAux_flatten (measureFn : List Char → ℚ) (maxWidth : ℚ)
    (urlMode : Bool) (text : List Char) :
    ∀ fuel start, text.length ≤ start + fuel →
      (wrapTextAux measureFn maxWidth urlMode text fuel start).flatten =
        text.drop start := by
  intro fuel
  induction fuel with
  | zero =>
    intro start h
    simp only [wrapTextAux, List.flatten_nil]
    exact (List.drop_eq_nil_of_le (by omega)).symm
  | succ fuel ih =>
    intro start h
    unfold wrapTextAux
    split
    · rename_i hlt
      have hstep := wrapStep_start_lt measureFn maxWidth urlMode text start
      rw [List.flatten_cons, wrapStep_fst_eq,
        ih _ (by omega),
        jsSlice_append_drop text (Nat.le_of_lt hstep)]
    · rename_i hge
      simp only [List.flatten_nil]
      exact (List.drop_eq_nil_of_le (by omega)).symm

theorem get?_some_lt {s : List Char} {p : Nat} {c : Char}
    (h : s.get? p = some c) : p < s.length := by
  by_contra hn
  rw [List.get?_eq_none.mpr (by omega)] at h
  cases h

theorem sep_not_hex (c : Char) (h : isSepChar c = true) : isHexChar c = false := by
  unfold isSepChar at h
  simp only [Bool.or_eq_true, beq_iff_eq] at h
  rcases h with ((((((h|h)|h)|h)|h)|h)|h) <;> subst h <;> decide

theorem hex_not_sep (c : Char) (h : isHexChar c = true) : isSepChar c = false := by
  cases hs : isSepChar c with
  | false => rfl
  | true => rw [sep_not_hex c hs] at h; cases h

theorem hexAt_get {s : List Char} {p : Nat} (h : hexAt s p = true) :
    ∃ c, s.get? p = some c ∧ isHexChar c = true := by
  unfold hexAt at h
  split at h
  · rename_i c hg
    exact ⟨c, hg, h⟩
  · cases h

theorem tripletAt_parts {s : List Char} {i : Nat} (h : tripletAt s i = true) :
    s.get? i = some '%' ∧ hexAt s (i+1) = true ∧ hexAt s (i+2) = true := by
  unfold tripletAt at h
  split at h
  · rename_i c hg
    simp only [Bool.and_eq_true, beq_iff_eq] at h
    obtain ⟨⟨hc, h1⟩, h2⟩ := h
    subst hc
    exact ⟨hg, h1, h2⟩
  · cases h

theorem runLenAux_triplets (s : List Char) :
    ∀ fuel i j, j < runLenAux s fuel i → tripletAt s (i + 3*j) = true := by
  intro fuel
  induction fuel with
  | zero => intro i j h; simp [runLenAux] at h
  | succ fuel ih =>
    intro i j h
    unfold runLenAux at h
    split at h
    · rename_i ht
      cases j with
      | zero => simpa using ht
      | succ j =>
        have hj := ih (i+3) j (by omega)
        have harith : i + 3 + 3*j = i + 3*(j+1) := by ring
        rwa [harith] at hj
    · omega

theorem lookaheadOk_some {s : List Char} {p : Nat} {c : Char}
    (hg : s.get? p = some c) : lookaheadOk s p = isSepChar c := by
  unfold lookaheadOk
  rw [hg]

theorem lookahead_fail_of_lt_runLen (s : List Char) (i m : Nat)
    (h : m < runLen s i) : lookaheadOk s (i + 3*m) = false := by
  have ht := runLenAux_triplets s s.length i m h
  rw [lookaheadOk_some (tripletAt_parts ht).1]
  decide

theorem tryRun_bounds (s : List Char) (i : Nat) :
    ∀ j m, tryRun s i j = some m →
      1 ≤ m ∧ m ≤ j ∧ lookaheadOk s (i + 3*m) = true := by
  intro j
  induction j with
  | zero => intro m h; cases h
  | succ j ih =>
    intro m h
    unfold tryRun at h
    split at h
    · rename_i hla
      cases h
      exact ⟨by omega, Nat.le_refl _, hla⟩
    · obtain ⟨h1, h2, h3⟩ := ih m h
      exact ⟨h1, by omega, h3⟩

theorem percentRunMatch_eq (s : List Char) (i n : Nat)
    (h : percentRunMatch s i = some n) :
    n = runLen s i ∧ 1 ≤ n ∧ lookaheadOk s (i + 3*n) = true := by
  obtain ⟨h1, h2, h3⟩ := tryRun_bounds s i (runLen s i) n h
  have hnotlt : ¬ n < runLen s i := by
    intro hlt
    rw [lookahead_fail_of_lt_runLen s i n hlt] at h3
    cases h3
  exact ⟨by omega, h1, h3⟩

theorem span_not_sep (s : List Char) (i q : Nat) (h1 : i ≤ q)
    (h2 : q < i + 3 * runLen s i) :
    ∃ c, s.get? q = some c ∧ isSepChar c = false := by
  have hj : (q - i) / 3 < runLen s i := by omega
  obtain ⟨hg, hx1, hx2⟩ := tripletAt_parts (runLenAux_triplets s s.length i _ hj)
  have hcase : q = i + 3*((q - i)/3) ∨ q = i + 3*((q - i)/3) + 1 ∨
      q = i + 3*((q - i)/3) + 2 := by omega
  rcases hcase with hq | hq | hq
  · exact ⟨'%', hq ▸ hg, by decide⟩
  · obtain ⟨c, hgc, hxc⟩ := hexAt_get hx1
    exact ⟨c, hq ▸ hgc, hex_not_sep c hxc⟩
  · obtain ⟨c, hgc, hxc⟩ := hexAt_get hx2
    exact ⟨c, hq ▸ hgc, hex_not_sep c hxc⟩

theorem urlBreakMatchAt_sep {s : List Char} {i : Nat} {c : Char}
    (hg : s.get? i = some c) (hs : isSepChar c = true) :
    urlBreakMatchAt s i = some 1 := by
  unfold urlBreakMatchAt
  rw [hg]
  simp [hs]

theorem urlBreakMatchAt_percent {s : List Char} {i : Nat} {c : Char}
    (hg : s.get? i = some c) (hs : isSepChar c = false) {n : Nat}
    (hp : percentRunMatch s i = some n) :
    urlBreakMatchAt s i = some (3*n) := by
  unfold urlBreakMatchAt
  rw [hg]
  simp [hs, hp]

theorem urlBreakMatchAt_cases {s : List Char} {i L : Nat}
    (h : urlBreakMatchAt s i = some L) :
    (∃ c, s.get? i = some c ∧ isSepChar c = true ∧ L = 1) ∨
      (∃ c n, s.get? i = some c ∧ isSepChar c = false ∧
        percentRunMatch s i = some n ∧ L = 3*n) := by
  unfold urlBreakMatchAt at h
  split at h
  · cases h
  · rename_i c hg
    split at h
    · rename_i hs
      left
      cases h
      exact ⟨c, hg, hs, rfl⟩
    · rename_i hs
      obtain ⟨n, ho, hL⟩ := Option.map_eq_some'.mp h
      exact Or.inr ⟨c, n, hg, by simpa using hs, ho, hL.symm⟩

theorem urlBreakMatchAt_pos {s : List Char} {i L : Nat}
    (h : urlBreakMatchAt s i = some L) : 1 ≤ L := by
  rcases urlBreakMatchAt_cases h with ⟨c, -, -, hL⟩ | ⟨c, n, -, -, hp, hL⟩
  · omega
  · have := (percentRunMatch_eq s i n hp).2.1
    omega

theorem urlBreakMatchAt_end_le {s : List Char} {i L : Nat}
    (h : urlBreakMatchAt s i = some L) : i + L ≤ s.length := by
  rcases urlBreakMatchAt_cases h with ⟨c, hg, -, hL⟩ | ⟨c, n, hg, -, hp, hL⟩
  · have := get?_some_lt hg
    omega
  · obtain ⟨hn, h1, -⟩ := percentRunMatch_eq s i n hp
    have hj : n - 1 < runLen s i := by omega
    obtain ⟨-, -, hx2⟩ := tripletAt_parts (runLenAux_triplets s s.length i _ hj)
    obtain ⟨c2, hgc2, -⟩ := hexAt_get hx2
    have := get?_some_lt hgc2
    omega

theorem urlBreakMatchAt_none_of_ge {s : List Char} {i : Nat}
    (h : s.length ≤ i) : urlBreakMatchAt s i = none := by
  unfold urlBreakMatchAt
  rw [List.get?_eq_none.mpr h]

theorem interior_match_le (s : List Char) (p n i L : Nat)
    (hp : percentRunMatch s p = some n) (hpi : p < i) (hin : i < p + 3*n)
    (hm : urlBreakMatchAt s i = some L) : i + L ≤ p + 3*n := by
  rcases urlBreakMatchAt_cases hm with ⟨c, hg, hs, hL⟩ | ⟨c, m, hg, hs, hpm, hL⟩
  · omega
  · by_contra hgt
    push_neg at hgt
    obtain ⟨hpn, hp1, hla⟩ := percentRunMatch_eq s p n hp
    obtain ⟨hmn, hm1, -⟩ := percentRunMatch_eq s i m hpm
    have hspan : ∃ c', s.get? (p + 3*n) = some c' ∧ isSepChar c' = false := by
      apply span_not_sep s i (p + 3*n) (by omega)
      rw [← hmn]
      omega
    obtain ⟨c', hgc', hsc'⟩ := hspan
    rw [lookaheadOk_some hgc', hsc'] at hla
    cases hla

theorem lastBreakAux_none {s : List Char} {fuel p best : Nat}
    (hg : s.get? p = none) : lastBreakAux s (fuel+1) p best = best := by
  conv_lhs => unfold lastBreakAux
  rw [hg]

theorem lastBreakAux_sep {s : List Char} {fuel p best : Nat} {c : Char}
    (hg : s.get? p = some c) (hs : isSepChar c = true) :
    lastBreakAux s (fuel+1) p best = lastBreakAux s fuel (p+1) (p+1) := by
  conv_lhs => unfold lastBreakAux
  rw [hg]
  simp [hs]

theorem lastBreakAux_pct {s : List Char} {fuel p best n : Nat} {c : Char}
    (hg : s.get? p = some c) (hs : isSepChar c = false)
    (hpm : percentRunMatch s p = some n) :
    lastBreakAux s (fuel+1) p best = lastBreakAux s fuel (p + 3*n) (p + 3*n) := by
  conv_lhs => unfold lastBreakAux
  rw [hg]
  simp [hs, hpm]

theorem lastBreakAux_skip {s : List Char} {fuel p best : Nat} {c : Char}
    (hg : s.get? p = some c) (hs : isSepChar c = false)
    (hpm : percentRunMatch s p = none) :
    lastBreakAux s (fuel+1) p best = lastBreakAux s fuel (p+1) best := by
  conv_lhs => unfold lastBreakAux
  rw [hg]
  simp [hs, hpm]

theorem urlBreakMatchAt_nomatch {s : List Char} {i : Nat} {c : Char}
    (hg : s.get? i = some c) (hs : isSepChar c = false)
    (hpm : percentRunMatch s i = none) : urlBreakMatchAt s i = none := by
  unfold urlBreakMatchAt
  rw [hg]
  simp [hs, hpm]

theorem lastBreakAux_ge (s : List Char) :
    ∀ fuel p best, best ≤ p → best ≤ lastBreakAux s fuel p best := by
  intro fuel
  induction fuel with
  | zero => intro p best _; exact Nat.le_refl best
  | succ fuel ih =>
    intro p best hbp
    cases hg : s.get? p with
    | none => rw [lastBreakAux_none hg]
    | some c =>
      cases hs : isSepChar c with
      | true =>
        rw [lastBreakAux_sep hg hs]
        exact Nat.le_trans (by omega) (ih (p+1) (p+1) (Nat.le_refl _))
      | false =>
        cases hpm : percentRunMatch s p with
        | some n =>
          rw [lastBreakAux_pct hg hs hpm]
          exact Nat.le_trans (by omega) (ih (p + 3*n) (p + 3*n) (Nat.le_refl _))
        | none =>
          rw [lastBreakAux_skip hg hs hpm]
          exact ih (p+1) best (by omega)

theorem lastBreakAux_endpoint (s : List Char) :
    ∀ fuel p best, lastBreakAux s fuel p best = best ∨
      ∃ i L, p ≤ i ∧ urlBreakMatchAt s i = some L ∧
        lastBreakAux s fuel p best = i + L := by
  intro fuel
  induction fuel with
  | zero => intro p best; left; rfl
  | succ fuel ih =>
    intro p best
    cases hg : s.get? p with
    | none => left; exact lastBreakAux_none hg
    | some c =>
      cases hs : isSepChar c with
      | true =>
        rw [lastBreakAux_sep hg hs]
        rcases ih (p+1) (p+1) with h | ⟨i, L, hi, hm, he⟩
        · exact Or.inr ⟨p, 1, Nat.le_refl p, urlBreakMatchAt_sep hg hs, h⟩
        · exact Or.inr ⟨i, L, by omega, hm, he⟩
      | false =>
        cases hpm : percentRunMatch s p with
        | some n =>
          rw [lastBreakAux_pct hg hs hpm]
          rcases ih (p + 3*n) (p + 3*n) with h | ⟨i, L, hi, hm, he⟩
          · exact Or.inr ⟨p, 3*n, Nat.le_refl p,
              urlBreakMatchAt_percent hg hs hpm, h⟩
          · exact Or.inr ⟨i, L, by omega, hm, he⟩
        | none =>
          rw [lastBreakAux_skip hg hs hpm]
          rcases ih (p+1) best with h | ⟨i, L, hi, hm, he⟩
          · exact Or.inl h
          · exact Or.inr ⟨i, L, by omega, hm, he⟩

theorem lastBreakAux_dominates (s : List Char) :
    ∀ fuel p best, s.length + 1 ≤ fuel + p → best ≤ p →
      ∀ i L, p ≤ i → urlBreakMatchAt s i = some L →
        i + L ≤ lastBreakAux s fuel p best := by
  intro fuel
  induction fuel with
  | zero =>
    intro p best hfp hbp i L hpi hm
    rw [urlBreakMatchAt_none_of_ge (by omega)] at hm
    cases hm
  | succ fuel ih =>
    intro p best hfp hbp i L hpi hm
    cases hg : s.get? p with
    | none =>
      have hp := List.get?_eq_none.mp hg
      rw [urlBreakMatchAt_none_of_ge (by omega)] at hm
      cases hm
    | some c =>
      cases hs : isSepChar c with
      | true =>
        rw [lastBreakAux_sep hg hs]
        rcases Nat.eq_or_lt_of_le hpi with rfl | hlt
        · have h1 : urlBreakMatchAt s p = some 1 := urlBreakMatchAt_sep hg hs
          rw [hm] at h1
          cases h1
          exact Nat.le_trans (by omega)
            (lastBreakAux_ge s fuel (p+1) (p+1) (Nat.le_refl _))
        · exact ih (p+1) (p+1) (by omega) (Nat.le_refl _) i L (by omega) hm
      | false =>
        cases hpm : percentRunMatch s p with
        | some n =>
          have hn1 := (percentRunMatch_eq s p n hpm).2.1
          rw [lastBreakAux_pct hg hs hpm]
          rcases Nat.eq_or_lt_of_le hpi with rfl | hlt
          · have h1 : urlBreakMatchAt s p = some (3*n) :=
              urlBreakMatchAt_percent hg hs hpm
            rw [hm] at h1
            cases h1
            exact lastBreakAux_ge s fuel (p + 3*n) (p + 3*n) (Nat.le_refl _)
          · by_cases hin : i < p + 3*n
            · exact Nat.le_trans (interior_match_le s p n i L hpm hlt hin hm)
                (lastBreakAux_ge s fuel (p + 3*n) (p + 3*n) (Nat.le_refl _))
            · exact ih (p + 3*n) (p + 3*n) (by omega) (Nat.le_refl _) i L
                (by omega) hm
        | none =>
          rw [lastBreakAux_skip hg hs hpm]
          rcases Nat.eq_or_lt_of_le hpi with rfl | hlt
          · have h0 := urlBreakMatchAt_nomatch hg hs hpm
            rw [hm] at h0
            cases h0
          · exact ih (p+1) best (by omega) (by omega) i L (by omega) hm

theorem lastBreak_dominates (s : List Char) {i L : Nat}
    (hm : urlBreakMatchAt s i = some L) : i + L ≤ lastBreak s :=
  lastBreakAux_dominates s (s.length + 1) 0 0 (by omega) (Nat.le_refl 0) i L
    (Nat.zero_le i) hm

theorem lastBreak_is_end (s : List Char) (h : 0 < lastBreak s) :
    ∃ i L, urlBreakMatchAt s i = some L ∧ i + L = lastBreak s := by
  rcases lastBreakAux_endpoint s (s.length + 1) 0 0 with h0 | ⟨i, L, -, hm, he⟩
  · unfold lastBreak at h
    omega
  · exact ⟨i, L, hm, he.symm⟩

theorem lastBreak_le_length (s : List Char) (h : 0 < lastBreak s) :
    lastBreak s ≤ s.length := by
  obtain ⟨i, L, hm, he⟩ := lastBreak_is_end s h
  exact he ▸ urlBreakMatchAt_end_le hm

theorem jsSlice_length (text : List Char) (a b : Nat) :
    (jsSlice text a b).length = min (b - a) (text.length - a) := by
  unfold jsSlice
  rw [List.length_take, List.length_drop]

theorem jsSlice_take (text : List Char) (start m k : Nat) (hk : k ≤ m - start) :
    jsSlice text start (start + k) = (jsSlice text start m).take k := by
  unfold jsSlice
  rw [List.take_take]
  congr 1
  omega

theorem growEndAux_measure (measureFn : List Char → ℚ) (maxWidth : ℚ)
    (text : List Char) (start : Nat) :
    ∀ fuel e, e < growEndAux measureFn maxWidth text start fuel e →
      measureFn (jsSlice text start
        (growEndAux measureFn maxWidth text start fuel e - 1)) ≤ maxWidth := by
  intro fuel
  induction fuel with
  | zero =>
    intro e h
    unfold growEndAux at h
    omega
  | succ fuel ih =>
    intro e h
    by_cases hc : e ≤ text.length ∧ measureFn (jsSlice text start e) ≤ maxWidth
    · have hred : growEndAux measureFn maxWidth text start (fuel+1) e =
          growEndAux measureFn maxWidth text start fuel (e+1) := by
        conv_lhs => unfold growEndAux
        rw [if_pos hc]
      rw [hred] at h ⊢
      rcases Nat.lt_or_ge (e+1)
          (growEndAux measureFn maxWidth text start fuel (e+1)) with hlt | hge
      · exact ih (e+1) hlt
      · have hge2 := growEndAux_ge measureFn maxWidth text start fuel (e+1)
        have heq : growEndAux measureFn maxWidth text start fuel (e+1) = e+1 := by
          omega
        rw [heq]
        exact hc.2
    · have hred : growEndAux measureFn maxWidth text start (fuel+1) e = e := by
        conv_lhs => unfold growEndAux
        rw [if_neg hc]
      rw [hred] at h
      omega

theorem growEnd_measure (measureFn : List Char → ℚ) (maxWidth : ℚ)
    (text : List Char) (start : Nat)
    (h : start + 1 < growEnd measureFn maxWidth text start) :
    measureFn (jsSlice text start
      (growEnd measureFn maxWidth text start - 1)) ≤ maxWidth :=
  growEndAux_measure measureFn maxWidth text start (text.length - start)
    (start+1) h

theorem wrapStep_overflow {measureFn : List Char → ℚ} {maxWidth : ℚ}
    {urlMode : Bool} {text : List Char} {start : Nat}
    (h : growEnd measureFn maxWidth text start - 1 ≤ start) :
    wrapStep measureFn maxWidth urlMode text start =
      (jsSlice text start (start+1), start+1) := by
  unfold wrapStep
  simp [h]

theorem wrapStep_generic {measureFn : List Char → ℚ} {maxWidth : ℚ}
    {text : List Char} {start : Nat}
    (h : ¬ growEnd measureFn maxWidth text start - 1 ≤ start) :
    wrapStep measureFn maxWidth false text start =
      (jsSlice text start (growEnd measureFn maxWidth text start - 1),
        growEnd measureFn maxWidth text start - 1) := by
  unfold wrapStep
  simp [h]

theorem wrapStep_urlpos {measureFn : List Char → ℚ} {maxWidth : ℚ}
    {text : List Char} {start : Nat}
    (h : ¬ growEnd measureFn maxWidth text start - 1 ≤ start)
    (hB : 0 < lastBreak
      (jsSlice text start (growEnd measureFn maxWidth text start - 1))) :
    wrapStep measureFn maxWidth true text start =
      (jsSlice text start (start + lastBreak
          (jsSlice text start (growEnd measureFn maxWidth text start - 1))),
        start + lastBreak
          (jsSlice text start (growEnd measureFn maxWidth text start - 1))) := by
  unfold wrapStep
  simp [h, hB]

theorem wrapStep_urlzero {measureFn : List Char → ℚ} {maxWidth : ℚ}
    {text : List Char} {start : Nat}
    (h : ¬ growEnd measureFn maxWidth text start - 1 ≤ start)
    (hB : lastBreak
      (jsSlice text start (growEnd measureFn maxWidth text start - 1)) = 0) :
    wrapStep measureFn maxWidth true text start =
      (jsSlice text start (growEnd measureFn maxWidth text start - 1),
        growEnd measureFn maxWidth text start - 1) := by
  unfold wrapStep
  simp [h, hB]

theorem wrapStep_line_bound (measureFn : List Char → ℚ) (maxWidth : ℚ)
    (urlMode : Bool) (text : List Char) (start : Nat)
    (hmono : ∀ s t : List Char, measureFn s ≤ measureFn (s ++ t))
    (hlen : 1 < (wrapStep measureFn maxWidth urlMode text start).1.length) :
    measureFn (wrapStep measureFn maxWidth urlMode text start).1 ≤ maxWidth := by
  by_cases hov : growEnd measureFn maxWidth text start - 1 ≤ start
  · rw [wrapStep_overflow hov] at hlen
    dsimp only at hlen
    exfalso
    have hl1 : (jsSlice text start (start+1)).length ≤ start + 1 - start := by
      unfold jsSlice
      rw [List.length_take]
      exact Nat.min_le_left _ _
    omega
  · have hme : measureFn (jsSlice text start
        (growEnd measureFn maxWidth text start - 1)) ≤ maxWidth :=
      growEnd_measure measureFn maxWidth text start (by omega)
    cases urlMode with
    | false =>
      rw [wrapStep_generic hov]
      exact hme
    | true =>
      by_cases hB : 0 < lastBreak
          (jsSlice text start (growEnd measureFn maxWidth text start - 1))
      · rw [wrapStep_urlpos hov hB]
        have hBlen := lastBreak_le_length _ hB
        have hseg : (jsSlice text start
            (growEnd measureFn maxWidth text start - 1)).length ≤
            growEnd measureFn maxWidth text start - 1 - start := by
          rw [jsSlice_length]
          exact Nat.min_le_left _ _
        rw [jsSlice_take text start (growEnd measureFn maxWidth text start - 1)
          (lastBreak (jsSlice text start
            (growEnd measureFn maxWidth text start - 1))) (by omega)]
        calc measureFn ((jsSlice text start
              (growEnd measureFn maxWidth text start - 1)).take
                (lastBreak (jsSlice text start
                  (growEnd measureFn maxWidth text start - 1)))) ≤
            measureFn (((jsSlice text start
              (growEnd measureFn maxWidth text start - 1)).take
                (lastBreak (jsSlice text start
                  (growEnd measureFn maxWidth text start - 1)))) ++
              ((jsSlice text start
                (growEnd measureFn maxWidth text start - 1)).drop
                  (lastBreak (jsSlice text start
                    (growEnd measureFn maxWidth text start - 1))))) :=
            hmono _ _
          _ = measureFn (jsSlice text start
              (growEnd measureFn maxWidth text start - 1)) := by
            rw [List.take_append_drop]
          _ ≤ maxWidth := hme
      · have hB0 : lastBreak
            (jsSlice text start (growEnd measureFn maxWidth text start - 1)) = 0 := by
          omega
        rw [wrapStep_urlzero hov hB0]
        exact hme

/-- C1: for every text, maximum width, measure function and mode flag,
concatenating (in order) the lines returned by `wrapText` yields exactly the
original text — no characters are dropped or duplicated, in both the generic
and the URL mode. -/
theorem wrapText_flatten_eq (text : List Char) (maxWidth : ℚ)
    (measureFn : List Char → ℚ) (urlMode : Bool) :
    (wrapText text maxWidth measureFn urlMode).flatten = text := by
  unfold wrapText
  rw [wrapTextAux_flatten measureFn maxWidth urlMode text text.length 0 (by omega)]
  exact List.drop_zero text

/-- C9: `wrapText` terminates on every input because each iteration of its
outer loop strictly increases the start index; in particular, whenever even
the single character at the current start position already measures wider
than `maxWidth`, that one character is emitted as its own line and the index
advances by exactly one. -/
theorem wrapStep_progress (measureFn : List Char → ℚ) (maxWidth : ℚ)
    (urlMode : Bool) (text : List Char) (start : Nat)
    (h : start < text.length) :
    start < (wrapStep measureFn maxWidth urlMode text start).2 ∧
      (maxWidth < measureFn (jsSlice text start (start+1)) →
        wrapStep measureFn maxWidth urlMode text start =
          (jsSlice text start (start+1), start+1)) := by
  refine ⟨wrapStep_start_lt measureFn maxWidth urlMode text start, ?_⟩
  intro hwide
  have hstop : growEnd measureFn maxWidth text start = start + 1 := by
    unfold growEnd
    exact growEndAux_stop measureFn maxWidth text start _ _
      (by
        rintro ⟨-, hle⟩
        exact absurd hle (not_le.mpr hwide))
  unfold wrapStep
  rw [hstop]
  simp

/-- C10: for every text, width and measure function that is monotone under
extension (a prefix measures no more than the whole string), every line that
`wrapText` returns with more than one character has measured width at most
`maxWidth`, in both the generic and the URL mode — only single-character
lines may exceed the width. -/
theorem wrapText_width_bound (text : List Char) (maxWidth : ℚ)
    (measureFn : List Char → ℚ) (urlMode : Bool)
    (hmono : ∀ s t : List Char, measureFn s ≤ measureFn (s ++ t)) :
    ∀ line ∈ wrapText text maxWidth measureFn urlMode,
      1 < line.length → measureFn line ≤ maxWidth := by
  suffices h : ∀ fuel start, ∀ line ∈ wrapTextAux measureFn maxWidth urlMode
      text fuel start, 1 < line.length → measureFn line ≤ maxWidth by
    exact h text.length 0
  intro fuel
  induction fuel with
  | zero =>
    intro start line hl
    simp [wrapTextAux] at hl
  | succ fuel ih =>
    intro start line hl hlen
    unfold wrapTextAux at hl
    split at hl
    · rcases List.mem_cons.mp hl with rfl | hmem
      · exact wrapStep_line_bound measureFn maxWidth urlMode text start hmono hlen
      · exact ih _ line hmem hlen
    · simp at hl

/-- Closed witness for C10: with the character-count measure and width 3,
the URL-mode wrapping of `"ab/cd"` yields the line `"ab/"` of length 3 > 1,
and its measure is within the bound. -/
theorem wrapText_width_bound_witness :
    (∀ s t : List Char, ((s.length : ℚ)) ≤ (((s ++ t).length : ℚ))) ∧
      ("ab/".toList ∈ wrapText "ab/cd".toList 3 (fun u => (u.length : ℚ)) true) ∧
      1 < ("ab/".toList).length ∧
      (("ab/".toList.length : ℚ)) ≤ 3 := by
  have hmono : ∀ s t : List Char, ((s.length : ℚ)) ≤ (((s ++ t).length : ℚ)) := by
    intro s t
    rw [List.length_append]
    push_cast
    linarith [Nat.cast_nonneg (α := ℚ) t.length]
  refine ⟨hmono, by decide, by decide, ?_⟩
  exact wrapText_width_bound "ab/cd".toList 3 (fun u => (u.length : ℚ)) true hmono
    "ab/".toList (by decide) (by decide)

/-- C7: in URL mode, for a line whose maximal-fit candidate (the segment from
`start` to `growEnd - 1`) is longer than one character, `wrapText` breaks
immediately after the last occurrence of the URL-boundary pattern inside the
candidate — a separator `/ ? & # - _ .`, or a maximal run of `%XX` triplets
followed by a separator or the end of the candidate (`urlBreakMatchAt`): when
a match exists (`0 < lastBreak`), the emitted line ends exactly at the
endpoint of the last such occurrence (it is an occurrence endpoint that
dominates all occurrence endpoints); when no match exists, the full candidate
is emitted as a hard break at the width boundary. -/
theorem wrapStep_url_boundary (measureFn : List Char → ℚ) (maxWidth : ℚ)
    (text : List Char) (start : Nat)
    (h1 : start < text.length)
    (h2 : start + 1 < growEnd measureFn maxWidth text start - 1) :
    (0 < lastBreak (jsSlice text start
        (growEnd measureFn maxWidth text start - 1)) →
      (∃ i L, urlBreakMatchAt (jsSlice text start
          (growEnd measureFn maxWidth text start - 1)) i = some L ∧
        i + L = lastBreak (jsSlice text start
          (growEnd measureFn maxWidth text start - 1))) ∧
      (∀ i L, urlBreakMatchAt (jsSlice text start
          (growEnd measureFn maxWidth text start - 1)) i = some L →
        i + L ≤ lastBreak (jsSlice text start
          (growEnd measureFn maxWidth text start - 1))) ∧
      wrapStep measureFn maxWidth true text start =
        (jsSlice text start (start + lastBreak (jsSlice text start
            (growEnd measureFn maxWidth text start - 1))),
          start + lastBreak (jsSlice text start
            (growEnd measureFn maxWidth text start - 1)))) ∧
    (lastBreak (jsSlice text start
        (growEnd measureFn maxWidth text start - 1)) = 0 →
      (∀ i L, urlBreakMatchAt (jsSlice text start
          (growEnd measureFn maxWidth text start - 1)) i = some L → False) ∧
      wrapStep measureFn maxWidth true text start =
        (jsSlice text start (growEnd measureFn maxWidth text start - 1),
          growEnd measureFn maxWidth text start - 1)) := by
  constructor
  · intro hB
    exact ⟨lastBreak_is_end _ hB,
      fun i L hm => lastBreak_dominates _ hm,
      wrapStep_urlpos (by omega) hB⟩
  · intro hB0
    refine ⟨?_, wrapStep_urlzero (by omega) hB0⟩
    intro i L hm
    have hd := lastBreak_dominates _ hm
    have hp := urlBreakMatchAt_pos hm
    omega

/-- Closed witness for C7: wrapping `"ab/cd"` at width 3 with the
character-count measure; the candidate is `"ab/"`, its last URL-boundary
occurrence is the separator `/`, and the step breaks right after it. -/
theorem wrapStep_url_boundary_witness :
    (0 < ("ab/cd".toList).length) ∧
      (0 + 1 < growEnd (fun u : List Char => (u.length : ℚ)) 3 "ab/cd".toList 0 - 1) ∧
      wrapStep (fun u : List Char => (u.length : ℚ)) 3 true "ab/cd".toList 0 =
        (jsSlice "ab/cd".toList 0
            (0 + lastBreak (jsSlice "ab/cd".toList 0
              (growEnd (fun u : List Char => (u.length : ℚ)) 3 "ab/cd".toList 0 - 1))),
          0 + lastBreak (jsSlice "ab/cd".toList 0
            (growEnd (fun u : List Char => (u.length : ℚ)) 3 "ab/cd".toList 0 - 1))) := by
  have h := wrapStep_url_boundary (fun u : List Char => (u.length : ℚ)) 3
    "ab/cd".toList 0 (by decide) (by decide)
  exact ⟨by decide, by decide, (h.1 (by decide)).2.2⟩

/-- Closed witness for C9 at a concrete input: text `"ab"`, maximum width
`-1` (narrower than any character), generic mode, start index 0. -/
theorem wrapStep_progress_witness :
    (0 < ("ab".toList).length) ∧
      0 < (wrapStep (fun s => (s.length : ℚ)) (-1) false "ab".toList 0).2 ∧
      wrapStep (fun s => (s.length : ℚ)) (-1) false "ab".toList 0 =
        (jsSlice "ab".toList 0 1, 1) := by
  have h := wrapStep_progress (fun s => (s.length : ℚ)) (-1) false "ab".toList 0
    (by decide)
  exact ⟨by decide, h.1, h.2 (by norm_num [jsSlice])⟩

/-! # Layout engine (src/utils/pdf.ts, `computeLayout`, lines 360-426) -/

/-- Spacing values for margin or padding (in PDF points); field order follows
the object literals of the source. -/
structure Spacing where
  top : ℚ
  right : ℚ
  bottom : ℚ
  left : ℚ
deriving DecidableEq

/-- Bounding box and metadata of the target DOM element (`ElementRect`). -/
structure ElementRect where
  left : ℚ
  top : ℚ
  right : ℚ
  bottom : ℚ
  width : ℚ
  height : ℚ
  fullHeight : ℚ
  fullWidth : ℚ
  backgroundColor : List Char
deriving DecidableEq

/-- Conversion factor from CSS pixels to PDF points (`PX_TO_PT = 72 / 96`). -/
def PX_TO_PT : ℚ := 72 / 96

/-- All pre-computed dimensional and typographic values for a single PDF page
(`Layout`). -/
structure Layout where
  pageWidth : ℚ
  pageHeight : ℚ
  margin : Spacing
  padding : Spacing
  bottomMargin : ℚ
  contentWidth : ℚ
  contentHeight : ℚ
  paddedWidth : ℚ
  paddedHeight : ℚ
  textX : ℚ
  textPadX : ℚ
  labelFontSize : ℚ
  urlFontSize : ℚ
  topBannerFontSize : ℚ
  labelRowH : ℚ
  urlRowH : ℚ
  labelToUrlGap : ℚ
  textBlockPad : ℚ
  urlLines : List (List Char)
deriving DecidableEq

/-- `computeLayout(rect, url, fontMono, marginOpt, paddingOpt)` of
src/utils/pdf.ts. The source measures URL candidates with
`(s) => fontMono.widthOfTextAtSize(s, urlFontSize)`; that closure is the
`measureMono` parameter here. -/
def computeLayout (rect : ElementRect) (url : List Char)
    (measureMono : List Char → ℚ) (marginOpt paddingOpt : Option Spacing) :
    Layout :=
  let contentWidth := rect.width * PX_TO_PT
  let contentHeight := rect.height * PX_TO_PT
  let padding := paddingOpt.getD ⟨20, 20, 20, 20⟩
  let margin := marginOpt.getD ⟨16, 16, 16, 16⟩
  let labelFontSize : ℚ := 9
  let urlFontSize : ℚ := 12
  let lineGap : ℚ := 2
  let labelRowH := labelFontSize + lineGap
  let urlRowH := urlFontSize + lineGap
  let textBlockPad : ℚ := 5
  let labelToUrlGap : ℚ := 4
  let topBannerFontSize : ℚ := 9
  let textPadX : ℚ := 10
  let paddedWidth := contentWidth + padding.left + padding.right
  let textX := margin.left + textPadX
  let availableTextWidth := paddedWidth - textPadX * 2
  let urlLines := wrapText url availableTextWidth measureMono true
  let bottomTextHeight :=
    textBlockPad + labelRowH + labelToUrlGap + (urlLines.length : ℚ) * urlRowH
  let bottomMargin := max margin.bottom bottomTextHeight
  let paddedHeight := contentHeight + padding.top + padding.bottom
  let pageWidth := paddedWidth + margin.left + margin.right
  let pageHeight := paddedHeight + margin.top + bottomMargin
  { pageWidth, pageHeight, margin, padding, bottomMargin, contentWidth,
    contentHeight, paddedWidth, paddedHeight, textX, textPadX, labelFontSize,
    urlFontSize, topBannerFontSize, labelRowH, urlRowH, labelToUrlGap,
    textBlockPad, urlLines }

/-- C2: for every element rect, URL and optional margin/padding, the layout
satisfies `margin.bottom ≤ bottomMargin`,
`pageWidth = paddedWidth + margin.left + margin.right`,
`pageHeight = paddedHeight + margin.top + bottomMargin`, and `bottomMargin`
equals the maximum of `margin.bottom` and the footer block height
`5 + (9+2) + 4 + urlLineCount * (12+2)` (proved for all rational inputs, so
in particular for all finite non-negative ones). -/
theorem computeLayout_invariants (rect : ElementRect) (url : List Char)
    (measureMono : List Char → ℚ) (marginOpt paddingOpt : Option Spacing) :
    (computeLayout rect url measureMono marginOpt paddingOpt).margin.bottom ≤
        (computeLayout rect url measureMono marginOpt paddingOpt).bottomMargin ∧
      (computeLayout rect url measureMono marginOpt paddingOpt).pageWidth =
        (computeLayout rect url measureMono marginOpt paddingOpt).paddedWidth +
          (computeLayout rect url measureMono marginOpt paddingOpt).margin.left +
          (computeLayout rect url measureMono marginOpt paddingOpt).margin.right ∧
      (computeLayout rect url measureMono marginOpt paddingOpt).pageHeight =
        (computeLayout rect url measureMono marginOpt paddingOpt).paddedHeight +
          (computeLayout rect url measureMono marginOpt paddingOpt).margin.top +
          (computeLayout rect url measureMono marginOpt paddingOpt).bottomMargin ∧
      (computeLayout rect url measureMono marginOpt paddingOpt).bottomMargin =
        max (computeLayout rect url measureMono marginOpt paddingOpt).margin.bottom
          (5 + (9 + 2) + 4 +
            ((computeLayout rect url measureMono marginOpt
              paddingOpt).urlLines.length : ℚ) * (12 + 2)) :=
  ⟨le_max_left _ _, rfl, rfl, rfl⟩

/-! # Capture orchestration and retry (src/app/api/stagehand/main.ts,
`main`, lines 13-79) -/

/-- The fixed retry bound `MAX_ATTEMPTS = 3` of `main`. -/
def MAX_ATTEMPTS : Nat := 3

/-- The outcome of one `capturePageInput` call for one attempt: a captured
`PageInput` (abstracted to a value, its contents do not affect control flow),
a `SelectorNotFoundError`, or any other error. Errors are carried as their
message strings. -/
inductive CapOutcome where
  | ok (value : Nat)
  | selectorNotFound (msg : String)
  | transient (msg : String)
deriving DecidableEq

/-- What the per-item retry loop of `main` produces: a captured value (with
the attempt index that succeeded), an immediately rethrown
`SelectorNotFoundError` (with the attempt index it occurred on), or the
aggregate failure after all attempts were exhausted. -/
inductive ItemResult where
  | captured (value : Nat) (attemptsUsed : Nat)
  | abortSelector (msg : String) (attemptsUsed : Nat)
  | failedAll (msg : String)
deriving DecidableEq

/-- The number of `capturePageInput` calls an `ItemResult` reflects. -/
def ItemResult.attempts : ItemResult → Nat
  | .captured _ a => a
  | .abortSelector _ a => a
  | .failedAll _ => MAX_ATTEMPTS

/-- The aggregate error message of `main`:
`Failed to capture ${item.url} after ${MAX_ATTEMPTS} attempts: ${message}`,
where `message` is the last error's message (`String(undefined)` could only
arise if the loop never ran, which it does with `MAX_ATTEMPTS = 3`). -/
def aggregateMessage (url : String) (lastError : Option String) : String :=
  "Failed to capture " ++ url ++ " after " ++ toString MAX_ATTEMPTS ++
    " attempts: " ++ lastError.getD "undefined"

/-- The `for (let attempt = 1; attempt <= MAX_ATTEMPTS; attempt++)` loop of
`main` for one item: `capture attempt` is the outcome of the attempt-th
`capturePageInput` call. `fuel` is the number of attempts still allowed
(initially `MAX_ATTEMPTS`, so the loop body runs for attempts
`1 .. MAX_ATTEMPTS` exactly as in the source); when it reaches 0 the loop is
over and the `if (!captured)` aggregate error is thrown. -/
def runAttempts (url : String) (capture : Nat → CapOutcome) :
    Nat → Nat → Option String → ItemResult
  | 0, _, lastError => .failedAll (aggregateMessage url lastError)
  | fuel+1, attempt, lastError =>
    match capture attempt with
    | .ok v => .captured v attempt
    | .selectorNotFound m => .abortSelector m attempt
    | .transient m => runAttempts url capture fuel (attempt+1) (some m)

/-- The whole retry loop of `main` for one item. -/
def runItem (url : String) (capture : Nat → CapOutcome) : ItemResult :=
  runAttempts url capture MAX_ATTEMPTS 1 none

/-- What `main` produces for a batch: the collected values in order, or the
thrown error's message. -/
inductive BatchResult where
  | ok (values : List Nat)
  | error (msg : String)
deriving DecidableEq

/-- The `for (const item of body.items)` loop of `main`: items are processed
sequentially; a `SelectorNotFoundError` or an exhausted retry loop throws,
aborting the whole batch. -/
def runBatch : List (String × (Nat → CapOutcome)) → BatchResult
  | [] => .ok []
  | (url, capture) :: rest =>
    match runItem url capture with
    | .captured v _ =>
      match runBatch rest with
      | .ok vs => .ok (v :: vs)
      | .error m => .error m
    | .abortSelector m _ => .error m
    | .failedAll m => .error m

theorem runAttempts_step_ok {url : String} {capture : Nat → CapOutcome}
    {fuel attempt : Nat} {lastError : Option String} {v : Nat}
    (h : capture attempt = .ok v) :
    runAttempts url capture (fuel+1) attempt lastError =
      .captured v attempt := by
  conv_lhs => unfold runAttempts
  rw [h]

theorem runAttempts_step_sel {url : String} {capture : Nat → CapOutcome}
    {fuel attempt : Nat} {lastError : Option String} {m : String}
    (h : capture attempt = .selectorNotFound m) :
    runAttempts url capture (fuel+1) attempt lastError =
      .abortSelector m attempt := by
  conv_lhs => unfold runAttempts
  rw [h]

theorem runAttempts_step_tr {url : String} {capture : Nat → CapOutcome}
    {fuel attempt : Nat} {lastError : Option String} {m : String}
    (h : capture attempt = .transient m) :
    runAttempts url capture (fuel+1) attempt lastError =
      runAttempts url capture fuel (attempt+1) (some m) := by
  conv_lhs => unfold runAttempts
  rw [h]

theorem runAttempts_attempts_le (url : String) (capture : Nat → CapOutcome) :
    ∀ fuel attempt lastError,
      (runAttempts url capture fuel attempt lastError).attempts ≤
        attempt + fuel - 1 ∨
      (runAttempts url capture fuel attempt lastError).attempts =
        MAX_ATTEMPTS := by
  intro fuel
  induction fuel with
  | zero => intro attempt lastError; right; rfl
  | succ fuel ih =>
    intro attempt lastError
    cases hc : capture attempt with
    | ok v =>
      rw [runAttempts_step_ok hc]
      left
      simp only [ItemResult.attempts]
      omega
    | selectorNotFound m =>
      rw [runAttempts_step_sel hc]
      left
      simp only [ItemResult.attempts]
      omega
    | transient m =>
      rw [runAttempts_step_tr hc]
      rcases ih (attempt+1) (some m) with h | h
      · left; omega
      · right; exact h

/-- C3: for each requested item, capture is attempted at most `MAX_ATTEMPTS`
= 3 times; a success on attempt `k ≤ 3` (after transient failures only)
yields the captured value with no further attempts; a
`SelectorNotFoundError` on any attempt `k ≤ 3` is never retried and aborts
the whole batch immediately with that error; and when all three attempts
fail with transient errors, the batch fails with a single aggregate error
naming the URL, the attempt count and the last underlying message. -/
theorem main_retry_policy :
    (∀ url capture, (runItem url capture).attempts ≤ MAX_ATTEMPTS) ∧
    (∀ url capture v k, 1 ≤ k → k ≤ MAX_ATTEMPTS → capture k = .ok v →
      (∀ j, 1 ≤ j → j < k → ∃ m, capture j = CapOutcome.transient m) →
      runItem url capture = .captured v k) ∧
    (∀ url capture m k rest, 1 ≤ k → k ≤ MAX_ATTEMPTS →
      capture k = .selectorNotFound m →
      (∀ j, 1 ≤ j → j < k → ∃ m', capture j = CapOutcome.transient m') →
      runItem url capture = .abortSelector m k ∧
        runBatch ((url, capture) :: rest) = .error m) ∧
    (∀ url capture m1 m2 m3 rest,
      capture 1 = .transient m1 → capture 2 = .transient m2 →
      capture 3 = .transient m3 →
      runItem url capture =
        .failedAll ("Failed to capture " ++ url ++ " after " ++
          toString MAX_ATTEMPTS ++ " attempts: " ++ m3) ∧
        runBatch ((url, capture) :: rest) =
          .error ("Failed to capture " ++ url ++ " after " ++
            toString MAX_ATTEMPTS ++ " attempts: " ++ m3)) := by
  refine ⟨?_, ?_, ?_, ?_⟩
  · intro url capture
    rcases runAttempts_attempts_le url capture MAX_ATTEMPTS 1 none with h | h
    · unfold runItem
      omega
    · unfold runItem
      omega
  · intro url capture v k hk1 hk3 hok hprev
    have hk : k = 1 ∨ k = 2 ∨ k = 3 := by
      have h3 : k ≤ 3 := hk3
      omega
    rcases hk with rfl | rfl | rfl
    · calc runItem url capture = runAttempts url capture (2+1) 1 none := rfl
        _ = .captured v 1 := runAttempts_step_ok hok
    · obtain ⟨m1, hm1⟩ := hprev 1 (by omega) (by omega)
      calc runItem url capture = runAttempts url capture (2+1) 1 none := rfl
        _ = runAttempts url capture (1+1) 2 (some m1) := runAttempts_step_tr hm1
        _ = .captured v 2 := runAttempts_step_ok hok
    · obtain ⟨m1, hm1⟩ := hprev 1 (by omega) (by omega)
      obtain ⟨m2, hm2⟩ := hprev 2 (by omega) (by omega)
      calc runItem url capture = runAttempts url capture (2+1) 1 none := rfl
        _ = runAttempts url capture (1+1) 2 (some m1) := runAttempts_step_tr hm1
        _ = runAttempts url capture (0+1) 3 (some m2) := runAttempts_step_tr hm2
        _ = .captured v 3 := runAttempts_step_ok hok
  · intro url capture m k rest hk1 hk3 hsel hprev
    have hitem : runItem url capture = .abortSelector m k := by
      have hk : k = 1 ∨ k = 2 ∨ k = 3 := by
        have h3 : k ≤ 3 := hk3
        omega
      rcases hk with rfl | rfl | rfl
      · calc runItem url capture = runAttempts url capture (2+1) 1 none := rfl
          _ = .abortSelector m 1 := runAttempts_step_sel hsel
      · obtain ⟨m1, hm1⟩ := hprev 1 (by omega) (by omega)
        calc runItem url capture = runAttempts url capture (2+1) 1 none := rfl
          _ = runAttempts url capture (1+1) 2 (some m1) := runAttempts_step_tr hm1
          _ = .abortSelector m 2 := runAttempts_step_sel hsel
      · obtain ⟨m1, hm1⟩ := hprev 1 (by omega) (by omega)
        obtain ⟨m2, hm2⟩ := hprev 2 (by omega) (by omega)
        calc runItem url capture = runAttempts url capture (2+1) 1 none := rfl
          _ = runAttempts url capture (1+1) 2 (some m1) := runAttempts_step_tr hm1
          _ = runAttempts url capture (0+1) 3 (some m2) := runAttempts_step_tr hm2
          _ = .abortSelector m 3 := runAttempts_step_sel hsel
    refine ⟨hitem, ?_⟩
    unfold runBatch
    rw [hitem]
  · intro url capture m1 m2 m3 rest h1 h2 h3
    have hitem : runItem url capture =
        .failedAll ("Failed to capture " ++ url ++ " after " ++
          toString MAX_ATTEMPTS ++ " attempts: " ++ m3) := by
      calc runItem url capture = runAttempts url capture (2+1) 1 none := rfl
        _ = runAttempts url capture (1+1) 2 (some m1) := runAttempts_step_tr h1
        _ = runAttempts url capture (0+1) 3 (some m2) := runAttempts_step_tr h2
        _ = runAttempts url capture 0 4 (some m3) := runAttempts_step_tr h3
        _ = .failedAll ("Failed to capture " ++ url ++ " after " ++
            toString MAX_ATTEMPTS ++ " attempts: " ++ m3) := rfl
    refine ⟨hitem, ?_⟩
    unfold runBatch
    rw [hitem]

/-- Closed witness for C3 at concrete capture behaviors: an item that fails
twice with a transient error and succeeds on the third attempt is captured
with exactly 3 attempts; a selector failure on attempt 1 aborts the batch;
three transient failures produce the aggregate message naming URL, attempt
count and last message. -/
theorem main_retry_policy_witness :
    runItem "u" (fun a => if a ≤ 2 then .transient "boom" else .ok 7) =
        .captured 7 3 ∧
      runBatch [("u", fun _ => CapOutcome.selectorNotFound "sel"),
          ("v", fun _ => CapOutcome.ok 1)] = .error "sel" ∧
      runItem "u" (fun a => .transient (toString a)) =
        .failedAll "Failed to capture u after 3 attempts: 3" := by
  refine ⟨?_, ?_, ?_⟩
  · exact main_retry_policy.2.1 "u"
      (fun a => if a ≤ 2 then .transient "boom" else .ok 7) 7 3
      (by decide) (by decide) (by decide)
      (by
        intro j hj1 hjk
        exact ⟨"boom", by interval_cases j <;> decide⟩)
  · exact (main_retry_policy.2.2.1 "u"
      (fun _ => CapOutcome.selectorNotFound "sel") "sel" 1
      [("v", fun _ => CapOutcome.ok 1)]
      (by decide) (by decide) (by decide)
      (by intro j hj1 hjk; omega)).2
  · have h := (main_retry_policy.2.2.2 "u" (fun a => .transient (toString a))
      "1" "2" "3" [] rfl rfl rfl).1
    simpa using h

/-! # Contrast color (src/utils/pdf.ts, `contrastColor`, lines 1081-1092) -/

/-- A plain RGB color with channels in the 0-255 range (`RGB`). -/
structure RGB where
  r : Nat
  g : Nat
  b : Nat
deriving DecidableEq

/-- A pdf-lib color as produced by `rgb(r, g, b)`, channels in the 0-1
range. -/
structure PdfColor where
  r : ℚ
  g : ℚ
  b : ℚ
deriving DecidableEq

/-- The `toLinear` closure of `contrastColor`:
`s <= 0.04045 ? s / 12.92 : ((s + 0.055) / 1.055) ** 2.4` with `s = c / 255`.
The non-integer exponent makes this a real-valued (noncomputable) model. -/
noncomputable def toLinear (c : Nat) : ℝ :=
  if ((c : ℝ) / 255) ≤ 0.04045 then ((c : ℝ) / 255) / 12.92
  else ((((c : ℝ) / 255) + 0.055) / 1.055) ^ (2.4 : ℝ)

/-- WCAG 2.1 relative luminance `L = 0.2126 R + 0.7152 G + 0.0722 B` over
linearized channels. -/
noncomputable def luminance (bg : RGB) : ℝ :=
  0.2126 * toLinear bg.r + 0.7152 * toLinear bg.g + 0.0722 * toLinear bg.b

/-- `contrastColor(bg)` of src/utils/pdf.ts:
`L > 0.179 ? rgb(0, 0, 0) : rgb(1, 1, 1)`. -/
noncomputable def contrastColor (bg : RGB) : PdfColor :=
  if luminance bg > 0.179 then ⟨0, 0, 0⟩ else ⟨1, 1, 1⟩

/-- C6: `contrastColor` maps black `{0,0,0}` to pure white `rgb(1,1,1)` and
white `{255,255,255}` to pure black `rgb(0,0,0)`; in general it returns
black exactly when the WCAG 2.1 relative luminance (sRGB piecewise
linearization, coefficients 0.2126/0.7152/0.0722) exceeds 0.179, and white
otherwise. -/
theorem contrastColor_wcag :
    contrastColor ⟨0, 0, 0⟩ = ⟨1, 1, 1⟩ ∧
      contrastColor ⟨255, 255, 255⟩ = ⟨0, 0, 0⟩ ∧
      ∀ bg : RGB, contrastColor bg =
        if 0.179 < luminance bg then (⟨0, 0, 0⟩ : PdfColor) else ⟨1, 1, 1⟩ := by
  have hz : toLinear 0 = 0 := by
    unfold toLinear
    rw [if_pos (by norm_num)]
    norm_num
  have ho : toLinear 255 = 1 := by
    unfold toLinear
    rw [if_neg (by push_cast; norm_num)]
    have h : ((((255:Nat):ℝ) / 255) + 0.055) / 1.055 = 1 := by push_cast; norm_num
    rw [h, Real.one_rpow]
  refine ⟨?_, ?_, fun bg => rfl⟩
  · unfold contrastColor
    rw [if_neg]
    unfold luminance
    dsimp only
    rw [hz]
    norm_num
  · unfold contrastColor
    rw [if_pos]
    unfold luminance
    dsimp only
    rw [ho]
    norm_num

/-! # PNG color extraction (src/utils/pdf.ts, `vibrantColorFromPng`,
lines 872-1031) -/

/-- The failure modes of the JS function: `DataView.getUint32` past the end
of the buffer throws a `RangeError`; a rejected `DecompressionStream`
(invalid deflate data) makes the awaited promise throw. -/
inductive PngError where
  | outOfBoundsRead
  | inflateFailed
deriving DecidableEq

/-- `view.getUint32(off)` (big-endian): defined only when
`off + 4 ≤ bytes.length`, otherwise a `RangeError` is thrown. -/
def getUint32 (bytes : List Nat) (off : Nat) : Except PngError Nat :=
  match bytes.get? off, bytes.get? (off+1), bytes.get? (off+2),
      bytes.get? (off+3) with
  | some b0, some b1, some b2, some b3 =>
    .ok (b0 * 2^24 + b1 * 2^16 + b2 * 2^8 + b3)
  | _, _, _, _ => .error .outOfBoundsRead

/-- `pngBuffer[i]`: JS indexing, `undefined` (here `none`) past the end. -/
def byteAt (bytes : List Nat) (i : Nat) : Option Nat := bytes.get? i

/-- The four character codes of the chunk type at `offset`;
`String.fromCharCode(undefined)` is the NUL character, code 0. -/
def chunkType (bytes : List Nat) (offset : Nat) : List Nat :=
  [(bytes.get? (offset+4)).getD 0, (bytes.get? (offset+5)).getD 0,
    (bytes.get? (offset+6)).getD 0, (bytes.get? (offset+7)).getD 0]

/-- The state accumulated by the chunk-walking loop: `width`, `height`,
`bitDepth`, `colorType` start as the JS number 0; `bitDepth`/`colorType` are
reassigned from single-byte reads that can be `undefined` (`none`). -/
structure PngHeader where
  width : Nat
  height : Nat
  bitDepth : Option Nat
  colorType : Option Nat
  idat : List (List Nat)
deriving DecidableEq

/-- The chunk-walking loop of `vibrantColorFromPng`. `offset` advances by
`12 + length ≥ 12` per iteration while fuel decreases by 1, so with initial
fuel `bytes.length + 1` the fuel can only reach 0 once
`offset > bytes.length`, where the loop is over anyway. ASCII codes:
`IHDR = [73,72,68,82]`, `IDAT = [73,68,65,84]`, `IEND = [73,69,78,68]`. -/
def parsePngAux (bytes : List Nat) : Nat → Nat → PngHeader →
    Except PngError PngHeader
  | 0, _, st => .ok st
  | fuel+1, offset, st =>
    if offset < bytes.length then
      match getUint32 bytes offset with
      | .error e => .error e
      | .ok len =>
        if chunkType bytes offset = [73, 72, 68, 82] then
          match getUint32 bytes (offset + 8) with
          | .error e => .error e
          | .ok w =>
            match getUint32 bytes (offset + 12) with
            | .error e => .error e
            | .ok hgt =>
              parsePngAux bytes fuel (offset + 12 + len)
                { st with
                  width := w
                  height := hgt
                  bitDepth := byteAt bytes (offset + 16)
                  colorType := byteAt bytes (offset + 17) }
        else if chunkType bytes offset = [73, 68, 65, 84] then
          parsePngAux bytes fuel (offset + 12 + len)
            { st with idat := st.idat ++ [(bytes.drop (offset + 8)).take len] }
        else if chunkType bytes offset = [73, 69, 78, 68] then
          .ok st
        else
          parsePngAux bytes fuel (offset + 12 + len) st
    else .ok st

/-- The chunk-parsing phase of `vibrantColorFromPng`: the 8-byte signature
is skipped (offset starts at 8), then chunks are walked. -/
def parsePng (bytes : List Nat) : Except PngError PngHeader :=
  parsePngAux bytes (bytes.length + 1) 8 ⟨0, 0, some 0, some 0, []⟩

/-- The unsupported-header test:
`bitDepth !== 8 || (colorType !== 2 && colorType !== 6)` (`NaN`/`undefined`
compares unequal to every number, which `none ≠ some _` models). -/
def unsupportedHeader (h : PngHeader) : Bool :=
  decide (h.bitDepth ≠ some 8) ||
    (decide (h.colorType ≠ some 2) && decide (h.colorType ≠ some 6))

/-- The Paeth predictor of PNG filter type 4 (`p = a + b - c` over the
integers, nearest of `a`, `b`, `c`). -/
def paeth (a b c : Nat) : Nat :=
  let p : Int := (a : Int) + b - c
  let pa := (p - a).natAbs
  let pb := (p - b).natAbs
  let pc := (p - c).natAbs
  if pa ≤ pb ∧ pa ≤ pc then a else if pb ≤ pc then b else c

/-- One reconstructed byte, by filter type (0 None, 1 Sub, 2 Up, 3 Average,
4 Paeth, anything else falls through to the raw byte). Reads past the end of
`raw` are JS `undefined`; arithmetic on `undefined` gives `NaN`, and storing
`NaN` into a `Uint8Array` stores 0; storing any number applies `ToUint8`
(mod 256, as `& 0xff` in the source does). -/
def reconByte (filterByte : Option Nat) (rawByte : Option Nat)
    (a b c : Nat) : Nat :=
  match filterByte with
  | some 0 => match rawByte with | some rb => rb % 256 | none => 0
  | some 1 => match rawByte with | some rb => (rb + a) % 256 | none => 0
  | some 2 => match rawByte with | some rb => (rb + b) % 256 | none => 0
  | some 3 => match rawByte with | some rb => (rb + (a + b) / 2) % 256 | none => 0
  | some 4 => match rawByte with | some rb => (rb + paeth a b c) % 256 | none => 0
  | _ => match rawByte with | some rb => rb % 256 | none => 0

/-- The inner (x) loop of the filter reconstruction for row `y`. -/
def reconRow (raw : List Nat) (stride channels y : Nat)
    (pixels : Array Nat) : Array Nat :=
  (List.range stride).foldl (fun px x =>
    let dst := y * stride
    let a := if channels ≤ x then px.getD (dst + x - channels) 0 else 0
    let b := if 0 < y then px.getD (dst - stride + x) 0 else 0
    let c := if channels ≤ x ∧ 0 < y then px.getD (dst - stride + x - channels) 0
      else 0
    let filterByte := raw.get? (y * (stride + 1))
    let rawByte := raw.get? (y * (stride + 1) + 1 + x)
    px.setD (dst + x) (reconByte filterByte rawByte a b c)) pixels

/-- The full filter reconstruction: `pixels` starts as a zero-filled
`Uint8Array` of `height * stride` bytes, rows are reconstructed top to
bottom. -/
def reconPixels (raw : List Nat) (width height channels : Nat) : Array Nat :=
  (List.range height).foldl
    (fun px y => reconRow raw (width * channels) channels y px)
    (Array.mkArray (height * (width * channels)) 0)

/-- One `Map` update of the bucket-voting loop: an existing quantized triple
is incremented in place, a new one is appended (JS `Map` preserves insertion
order). -/
def bumpBucket (buckets : List ((Nat × Nat × Nat) × Nat))
    (k : Nat × Nat × Nat) : List ((Nat × Nat × Nat) × Nat) :=
  if buckets.any (fun e => decide (e.1 = k)) then
    buckets.map (fun e => if e.1 = k then (e.1, e.2 + 1) else e)
  else buckets ++ [(k, 1)]

/-- The sampling/filtering/quantizing loop: every `step`-th pixel index
`i = 0, step, 2*step, … < width*height` is sampled, so the loop body runs
`⌈width*height / step⌉` times. Near-transparent (`a < 200`), near-gray
(`max-min < 30`), near-black (`max < 40`) and near-white (`max > 240`)
samples are skipped; survivors are quantized to the nearest multiple of 8
per channel (`Math.round(v/8)*8 = ((v+4)/8)*8` for non-negative `v`). -/
def collectBuckets (pixels : Array Nat) (width height channels : Nat) :
    List ((Nat × Nat × Nat) × Nat) :=
  let step := max 1 (width * height / 10000)
  let iters := (width * height + step - 1) / step
  (List.range iters).foldl (fun buckets k =>
    let i := k * step
    let base := i * channels
    let r := pixels.getD base 0
    let g := pixels.getD (base + 1) 0
    let b := pixels.getD (base + 2) 0
    let a := if channels = 4 then pixels.getD (base + 3) 0 else 255
    if a < 200 then buckets
    else
      let mx := max r (max g b)
      let mn := min r (min g b)
      if mx - mn < 30 ∨ mx < 40 ∨ 240 < mx then buckets
      else
        bumpBucket buckets ((r + 4) / 8 * 8, (g + 4) / 8 * 8, (b + 4) / 8 * 8))
    []

/-- The bucket-scoring loop: score = HSL saturation × `log1p(count)`.
`Math.log1p` is transcendental, so it is abstracted as the `log1p`
parameter; the saturation division is total in `ℚ` (`x / 0 = 0`) where JS
floats would give `Infinity`/`NaN`, but every bucket that passed the
near-gray filter has `max - min ≥ 22` after quantization, so the denominator
is nonzero on every reachable bucket, and no claim under verification
depends on which bucket wins. -/
def pickBest (log1p : Nat → ℚ) (buckets : List ((Nat × Nat × Nat) × Nat)) :
    RGB :=
  (buckets.foldl (fun acc e =>
    let mx : ℚ := (max e.1.1 (max e.1.2.1 e.1.2.2) : ℚ) / 255
    let mn : ℚ := (min e.1.1 (min e.1.2.1 e.1.2.2) : ℚ) / 255
    let l := (mx + mn) / 2
    let sat := (mx - mn) / (1 - |2 * l - 1|)
    let score := sat * log1p e.2
    if acc.2 < score then ((⟨e.1.1, e.1.2.1, e.1.2.2⟩ : RGB), score) else acc)
    ((⟨128, 128, 128⟩ : RGB), (-1 : ℚ))).1

/-- Everything `vibrantColorFromPng` does after the chunk walk: the
unsupported-header early return, IDAT concatenation and decompression
(`none` from `inflate` models the rejecting `DecompressionStream`, which the
JS `await` turns into a thrown error), filter reconstruction, sampling, and
scoring. -/
def vibrantColorFromParsed (inflate : List Nat → Option (List Nat))
    (log1p : Nat → ℚ) (h : PngHeader) : Except PngError RGB :=
  if unsupportedHeader h then .ok ⟨0, 0, 0⟩
  else
    let channels := if h.colorType = some 6 then 4 else 3
    match inflate h.idat.flatten with
    | none => .error .inflateFailed
    | some raw =>
      let pixels := reconPixels raw h.width h.height channels
      let buckets := collectBuckets pixels h.width h.height channels
      if buckets = [] then .ok ⟨0, 0, 0⟩
      else .ok (pickBest log1p buckets)

/-- `vibrantColorFromPng(pngBuffer)` of src/utils/pdf.ts: the chunk walk
followed by everything downstream of it. The platform deflate
(`DecompressionStream("deflate")`) is the `inflate` parameter and
`Math.log1p` is the `log1p` parameter. -/
def vibrantColorFromPng (inflate : List Nat → Option (List Nat))
    (log1p : Nat → ℚ) (pngBuffer : List Nat) : Except PngError RGB :=
  match parsePng pngBuffer with
  | .error e => .error e
  | .ok h => vibrantColorFromParsed inflate log1p h

theorem vibrantColorFromPng_parsed {inflate : List Nat → Option (List Nat)}
    {log1p : Nat → ℚ} {pngBuffer : List Nat} {h : PngHeader}
    (hp : parsePng pngBuffer = .ok h) :
    vibrantColorFromPng inflate log1p pngBuffer =
      vibrantColorFromParsed inflate log1p h := by
  unfold vibrantColorFromPng
  rw [hp]

theorem vibrantColorFromParsed_unsupported
    {inflate : List Nat → Option (List Nat)} {log1p : Nat → ℚ}
    {h : PngHeader} (hu : unsupportedHeader h = true) :
    vibrantColorFromParsed inflate log1p h = .ok ⟨0, 0, 0⟩ := by
  unfold vibrantColorFromParsed
  rw [if_pos hu]

theorem vibrantColorFromParsed_supported
    {inflate : List Nat → Option (List Nat)} {log1p : Nat → ℚ}
    {h : PngHeader} {raw : List Nat} (hu : ¬ unsupportedHeader h = true)
    (hr : inflate h.idat.flatten = some raw) :
    vibrantColorFromParsed inflate log1p h =
      (if collectBuckets
          (reconPixels raw h.width h.height
            (if h.colorType = some 6 then 4 else 3))
          h.width h.height (if h.colorType = some 6 then 4 else 3) = [] then
        Except.ok (⟨0, 0, 0⟩ : RGB)
      else .ok (pickBest log1p
        (collectBuckets
          (reconPixels raw h.width h.height
            (if h.colorType = some 6 then 4 else 3))
          h.width h.height (if h.colorType = some 6 then 4 else 3)))) := by
  unfold vibrantColorFromParsed
  rw [if_neg hu]
  dsimp only
  rw [hr]

/-- A 9-byte buffer: the PNG signature plus one byte. The chunk loop enters
(`offset = 8 < 9`) and `view.getUint32(8)` reads past the end. -/
def pngTruncated : List Nat := [137, 80, 78, 71, 13, 10, 26, 10, 0]

/-- A well-formed 45-byte PNG (signature, IHDR for a 1×1 image with bit
depth 8 and color type 3, IEND) whose header the extractor does not
support. -/
def pngUnsupported : List Nat :=
  [137, 80, 78, 71, 13, 10, 26, 10,
   0, 0, 0, 13, 73, 72, 68, 82,
   0, 0, 0, 1, 0, 0, 0, 1, 8, 3, 0, 0, 0,
   0, 0, 0, 0,
   0, 0, 0, 0, 73, 69, 78, 68, 0, 0, 0, 0]

/-- A well-formed 59-byte PNG: 1×1 RGBA (bit depth 8, color type 6) with a
2-byte IDAT payload. -/
def pngGray : List Nat :=
  [137, 80, 78, 71, 13, 10, 26, 10,
   0, 0, 0, 13, 73, 72, 68, 82,
   0, 0, 0, 1, 0, 0, 0, 1, 8, 6, 0, 0, 0,
   0, 0, 0, 0,
   0, 0, 0, 2, 73, 68, 65, 84, 1, 2, 0, 0, 0, 0,
   0, 0, 0, 0, 73, 69, 78, 68, 0, 0, 0, 0]

/-- C4 counterexample: on the truncated 9-byte input, `vibrantColorFromPng`
does not return a fallback color — `view.getUint32(8)` reads past the end of
the buffer and the function throws a `RangeError` (with any decompressor and
any `log1p`), so it is not total on arbitrary byte arrays. -/
theorem vibrantColorFromPng_truncated_counterexample :
    vibrantColorFromPng (fun _ => none) (fun _ => 0) pngTruncated =
      .error .outOfBoundsRead := by
  rfl

/-- C4 (amended): `vibrantColorFromPng` returns an RGB value (never throws)
on every input whose chunk walk stays within the buffer and whose IDAT
stream decompresses when decompression is reached — in particular every
unsupported header returns the fallback color; but a truncated chunk
structure or invalid deflate data raises an error instead of a fallback. -/
theorem vibrantColorFromPng_ok_of_wellFormed
    (inflate : List Nat → Option (List Nat)) (log1p : Nat → ℚ)
    (png : List Nat) (h : PngHeader)
    (hp : parsePng png = .ok h)
    (hok : unsupportedHeader h = true ∨
      ∃ raw, inflate h.idat.flatten = some raw) :
    ∃ c, vibrantColorFromPng inflate log1p png = .ok c := by
  rw [vibrantColorFromPng_parsed hp]
  rcases hok with hu | ⟨raw, hr⟩
  · exact ⟨⟨0, 0, 0⟩, vibrantColorFromParsed_unsupported hu⟩
  · by_cases hu : unsupportedHeader h = true
    · exact ⟨⟨0, 0, 0⟩, vibrantColorFromParsed_unsupported hu⟩
    · rw [vibrantColorFromParsed_supported hu hr]
      split <;> split <;> exact ⟨_, rfl⟩

/-- Closed witness for the amended C4: the well-formed unsupported-header
PNG parses and yields a color even with a decompressor that always fails. -/
theorem vibrantColorFromPng_ok_of_wellFormed_witness :
    parsePng pngUnsupported = Except.ok ⟨1, 1, some 8, some 3, []⟩ ∧
      ∃ c, vibrantColorFromPng (fun _ => none) (fun _ => 0) pngUnsupported =
        .ok c := by
  refine ⟨by rfl, ?_⟩
  exact vibrantColorFromPng_ok_of_wellFormed (fun _ => none) (fun _ => 0)
    pngUnsupported ⟨1, 1, some 8, some 3, []⟩ (by rfl) (Or.inl (by rfl))

/-- C5: (a) for every PNG whose parsed IHDR declares a bit depth other than
8 or a color type other than 2 or 6, `vibrantColorFromPng` returns `{0,0,0}`
without throwing, and it does so for every decompressor — decompression is
never attempted; (b) for every supported PNG in which no sampled pixel
survives the transparency/gray/black/white filters (the bucket map stays
empty), it also returns `{0,0,0}`. -/
theorem vibrantColorFromPng_fallback_black :
    (∀ (inflate : List Nat → Option (List Nat)) (log1p : Nat → ℚ)
      (png : List Nat) (h : PngHeader), parsePng png = Except.ok h →
      unsupportedHeader h = true →
      vibrantColorFromPng inflate log1p png = .ok ⟨0, 0, 0⟩) ∧
    (∀ (inflate : List Nat → Option (List Nat)) (log1p : Nat → ℚ)
      (png : List Nat) (h : PngHeader) (raw : List Nat),
      parsePng png = Except.ok h →
      unsupportedHeader h = false →
      inflate h.idat.flatten = some raw →
      collectBuckets (reconPixels raw h.width h.height
          (if h.colorType = some 6 then 4 else 3)) h.width h.height
          (if h.colorType = some 6 then 4 else 3) = [] →
      vibrantColorFromPng inflate log1p png = .ok ⟨0, 0, 0⟩) := by
  constructor
  · intro inflate log1p png h hp hu
    rw [vibrantColorFromPng_parsed hp, vibrantColorFromParsed_unsupported hu]
  · intro inflate log1p png h raw hp hu hr hb
    rw [vibrantColorFromPng_parsed hp,
      vibrantColorFromParsed_supported (by rw [hu]; exact Bool.false_ne_true) hr,
      if_pos hb]

/-- Closed witness for C5: the color-type-3 PNG hits the unsupported branch;
the 1×1 RGBA PNG whose only pixel is near-gray `(10,10,10,255)` leaves the
bucket map empty; both return `{0,0,0}`. -/
theorem vibrantColorFromPng_fallback_black_witness :
    parsePng pngUnsupported = Except.ok ⟨1, 1, some 8, some 3, []⟩ ∧
      unsupportedHeader ⟨1, 1, some 8, some 3, []⟩ = true ∧
      vibrantColorFromPng (fun _ => none) (fun _ => 0) pngUnsupported =
        .ok ⟨0, 0, 0⟩ ∧
      parsePng pngGray = Except.ok ⟨1, 1, some 8, some 6, [[1, 2]]⟩ ∧
      collectBuckets (reconPixels [0, 10, 10, 10, 255] 1 1 4) 1 1 4 = [] ∧
      vibrantColorFromPng (fun _ => some [0, 10, 10, 10, 255]) (fun _ => 0)
        pngGray = .ok ⟨0, 0, 0⟩ := by
  refine ⟨by rfl, by rfl, ?_, by rfl, by rfl, ?_⟩
  · exact vibrantColorFromPng_fallback_black.1 (fun _ => none) (fun _ => 0)
      pngUnsupported ⟨1, 1, some 8, some 3, []⟩ (by rfl) (by rfl)
  · exact vibrantColorFromPng_fallback_black.2
      (fun _ => some [0, 10, 10, 10, 255]) (fun _ => 0) pngGray
      ⟨1, 1, some 8, some 6, [[1, 2]]⟩ [0, 10, 10, 10, 255]
      (by rfl) (by rfl) (by rfl) (by rfl)

/-! # Gradient transparency fix (src/utils/pdf.ts,
`fixGradientTransparency`, lines 243-289) -/

/-- JS `\s` restricted to the ASCII whitespace that can occur in computed
CSS color strings. -/
def isWsChar (c : Char) : Bool :=
  c == ' ' || c == '\t' || c == '\n' || c == '\r'

/-- Consume `\s*`: the maximal run of leading whitespace. -/
def eatWs : List Char → List Char
  | c :: rest => if isWsChar c then eatWs rest else c :: rest
  | [] => []

/-- The number of leading whitespace characters. -/
def wsRun : List Char → Nat
  | c :: rest => if isWsChar c then wsRun rest + 1 else 0
  | [] => 0

/-- Consume one literal character. -/
def eatChar (c : Char) : List Char → Option (List Char)
  | x :: rest => if x = c then some rest else none
  | [] => none

/-- Consume a literal string. -/
def eatLit : List Char → List Char → Option (List Char)
  | [], s => some s
  | c :: cs, s => (eatChar c s).bind (eatLit cs)

/-- Consume `\s+` (at least one whitespace, then the rest of the run). -/
def eatWs1 : List Char → Option (List Char)
  | c :: rest => if isWsChar c then some (eatWs rest) else none
  | [] => none

/-- Consume `[^)]*` (greedy): everything up to the first `)` or the end. -/
def eatNonParen : List Char → List Char
  | c :: rest => if c = ')' then c :: rest else eatNonParen rest
  | [] => []

/-- Consume `(\d+)` and return the captured digits with the rest. -/
def takeDigits : List Char → List Char × List Char
  | c :: rest =>
    if c.isDigit then
      let (d, r) := takeDigits rest
      (c :: d, r)
    else ([], c :: rest)
  | [] => ([], [])

/-- Consume `[\d.]+` and return the consumed characters with the rest. -/
def takeDigitsDots : List Char → List Char × List Char
  | c :: rest =>
    if c.isDigit || c == '.' then
      let (d, r) := takeDigitsDots rest
      (c :: d, r)
    else ([], c :: rest)
  | [] => ([], [])

/-- The first alternative of `TRANSPARENT_RE`:
`rgba\(\s*0\s*,\s*0\s*,\s*0\s*,\s*0\s*\)`. Every `\s*` is followed by a
non-whitespace literal, so greedy matching needs no backtracking. Returns
the suffix after the match. -/
def matchTransparentLegacy (s : List Char) : Option (List Char) :=
  (eatLit "rgba(".toList s).bind fun r1 =>
  (eatChar '0' (eatWs r1)).bind fun r2 =>
  (eatChar ',' (eatWs r2)).bind fun r3 =>
  (eatChar '0' (eatWs r3)).bind fun r4 =>
  (eatChar ',' (eatWs r4)).bind fun r5 =>
  (eatChar '0' (eatWs r5)).bind fun r6 =>
  (eatChar ',' (eatWs r6)).bind fun r7 =>
  (eatChar '0' (eatWs r7)).bind fun r8 =>
  eatChar ')' (eatWs r8)

/-- The second alternative of `TRANSPARENT_RE`:
`rgba\(\s*0\s+0\s+0\s*\/\s*0[^)]*\)` (modern slash syntax). -/
def matchTransparentModern (s : List Char) : Option (List Char) :=
  (eatLit "rgba(".toList s).bind fun r1 =>
  (eatChar '0' (eatWs r1)).bind fun r2 =>
  (eatWs1 r2).bind fun r3 =>
  (eatChar '0' r3).bind fun r4 =>
  (eatWs1 r4).bind fun r5 =>
  (eatChar '0' r5).bind fun r6 =>
  (eatChar '/' (eatWs r6)).bind fun r7 =>
  (eatChar '0' (eatWs r7)).bind fun r8 =>
  eatChar ')' (eatNonParen r8)

/-- A `TRANSPARENT_RE` match at the head of `s` (alternatives in source
order); returns the suffix after the match. -/
def matchTransparent (s : List Char) : Option (List Char) :=
  match matchTransparentLegacy s with
  | some r => some r
  | none => matchTransparentModern s

/-- `TRANSPARENT_RE.test(s)` (with `lastIndex` reset, as the source does
after every test): does the pattern match anywhere in `s`? -/
def transparentTest : List Char → Bool
  | [] => false
  | c :: rest => (matchTransparent (c :: rest)).isSome || transparentTest rest

/-- Whether `pat` is an initial segment of `s`. -/
def leadsWith : List Char → List Char → Bool
  | [], _ => true
  | _ :: _, [] => false
  | p :: ps, c :: cs => p == c && leadsWith ps cs

/-- JS `s.includes(pat)`. -/
def containsSub (pat : List Char) : List Char → Bool
  | [] => leadsWith pat []
  | c :: rest => leadsWith pat (c :: rest) || containsSub pat rest

/-- `\s*[, ]` with the regex engine's backtracking folded in: after the
greedy `\s*`, the class `[, ]` takes a comma if one follows the whitespace
run; otherwise the engine backtracks so the class consumes a space of the
run, which succeeds exactly when the run contains a space. Either way the
characters consumed are the run (plus the comma), because the `\s*` that
follows the class swallows the rest of the run; and if digits later fail
after the comma path, the space path cannot rescue the match (it stops right
before the comma), so taking the comma path first is exact. -/
def eatSepComma (s : List Char) : Option (List Char) :=
  match eatWs s with
  | ',' :: r2 => some r2
  | _ => if (s.take (wsRun s)).any (fun c => c == ' ') then some (eatWs s)
    else none

/-- `\s*[,/]` of the optional alpha group (the class has no whitespace, so
greedy `\s*` needs no backtracking). -/
def eatSepSlash (s : List Char) : Option (List Char) :=
  match eatWs s with
  | ',' :: r => some r
  | '/' :: r => some r
  | _ => none

/-- `\s*\)` closing the color pattern. -/
def eatClose (s : List Char) : Option (List Char) :=
  eatChar ')' (eatWs s)

/-- The optional `(?:\s*[,/]\s*[\d.]+)?` group followed by `\s*\)`: the
greedy engine first tries the group and then the close; if that fails
anywhere it retries without the group. -/
def eatTail (s : List Char) : Option (List Char) :=
  match (eatSepSlash s).bind fun r1 =>
      (let dr := takeDigitsDots (eatWs r1)
       if dr.1 = [] then none else eatClose dr.2) with
  | some r => some r
  | none => eatClose s

/-- A `colorRe` match at the head of `s`:
`rgba?\(\s*(\d+)\s*[, ]\s*(\d+)\s*[, ]\s*(\d+)(?:\s*[,/]\s*[\d.]+)?\s*\)`.
Returns the three captured digit strings and the suffix after the match
(`rgba?` then `\(`: if the optional `a` is taken, `(` must follow it). -/
def matchColor (s : List Char) :
    Option ((List Char × List Char × List Char) × List Char) :=
  (eatLit "rgb".toList s).bind fun r0 =>
  (match r0 with
   | 'a' :: '(' :: r => some r
   | '(' :: r => some r
   | _ => none).bind fun r1 =>
  (let dr1 := takeDigits (eatWs r1)
   if dr1.1 = [] then none else
   (eatSepComma dr1.2).bind fun r3 =>
   let dr2 := takeDigits (eatWs r3)
   if dr2.1 = [] then none else
   (eatSepComma dr2.2).bind fun r5 =>
   let dr3 := takeDigits (eatWs r5)
   if dr3.1 = [] then none else
   (eatTail dr3.2).map fun r7 => ((dr1.1, dr2.1, dr3.1), r7))

/-- One color-stop match of the `colorRe.exec` loop: its start position in
the string, its full matched text, and the three captures. -/
structure ColorMatch where
  pos : Nat
  full : List Char
  r : List Char
  g : List Char
  b : List Char
deriving DecidableEq

/-- The `colorRe.exec` loop over `bg`, fused with the engine's scan: at each
position try the pattern; on a match, record it and resume right after it.
Every match consumes at least `rgb(`, so the suffix shrinks by at least the
match length and fuel `bg.length` suffices. -/
def colorScanAux : Nat → List Char → Nat → List ColorMatch
  | 0, _, _ => []
  | _+1, [], _ => []
  | fuel+1, c :: rest, pos =>
    match matchColor (c :: rest) with
    | some (caps, after) =>
      { pos := pos, full := (c :: rest).take ((c :: rest).length - after.length),
        r := caps.1, g := caps.2.1, b := caps.2.2 } ::
        colorScanAux fuel after (pos + ((c :: rest).length - after.length))
    | none => colorScanAux fuel rest (pos + 1)

/-- All `colorRe` matches of `bg`, in order. -/
def colorScan (bg : List Char) : List ColorMatch := colorScanAux bg.length bg 0

/-- The `opaqueColors` collection of `fixGradientTransparency`: every color
match whose full matched text does not itself contain a transparent-black
stop. -/
def opaqueColors (bg : List Char) : List ColorMatch :=
  (colorScan bg).filter (fun m => ! transparentTest m.full)

/-- The replacement `toRgba0(r, g, b)` = `rgba(${r}, ${g}, ${b}, 0)`. -/
def toRgba0 (r g b : List Char) : List Char :=
  "rgba(".toList ++ r ++ ", ".toList ++ g ++ ", ".toList ++ b ++ ", 0)".toList

/-- `bg.replace(TRANSPARENT_RE, rep)`: replace each leftmost,
non-overlapping match left to right. Every match consumes at least `rgba(`,
so fuel `s.length` suffices. -/
def replaceTransparentAux (rep : List Char) : Nat → List Char → List Char
  | 0, s => s
  | _+1, [] => []
  | fuel+1, c :: rest =>
    match matchTransparent (c :: rest) with
    | some after => rep ++ replaceTransparentAux rep fuel after
    | none => c :: replaceTransparentAux rep fuel rest

/-- `bg.replace(TRANSPARENT_RE, rep)`. -/
def replaceTransparent (rep : List Char) (s : List Char) : List Char :=
  replaceTransparentAux rep s.length s

/-- The per-string core of `fixGradientTransparency`: `none` when the
background-image string is left untouched (no "gradient" substring, no
transparent-black stop, or no opaque color stop), `some fixed` when the
style is rewritten, replacing every transparent-black stop with the first
opaque stop's channels at alpha 0. -/
def fixGradientString (bg : List Char) : Option (List Char) :=
  if ¬ (containsSub "gradient".toList bg = true ∧ transparentTest bg = true) then
    none
  else
    match opaqueColors bg with
    | [] => none
    | m :: _ => some (replaceTransparent (toRgba0 m.r m.g m.b) bg)

/-- Modelled from the spec: "replacing the transparent stop's color channels
with the nearest opaque stop's channels at zero alpha". The spec does not
fix the distance; this model measures it between match start positions and
prefers the earlier stop on ties. -/
def nearestOpaque (opaques : List ColorMatch) (p : Nat) : Option ColorMatch :=
  opaques.foldl (fun acc m =>
    match acc with
    | none => some m
    | some b0 =>
      if max m.pos p - min m.pos p < max b0.pos p - min b0.pos p then some m
      else some b0) none

/-- Modelled from the spec: the rewrite in which each transparent-black stop
is replaced by its own nearest opaque stop's channels at alpha 0. -/
def replaceTransparentNearestAux (opaques : List ColorMatch) :
    Nat → Nat → List Char → List Char
  | 0, _, s => s
  | _+1, _, [] => []
  | fuel+1, pos, c :: rest =>
    match matchTransparent (c :: rest) with
    | some after =>
      (match nearestOpaque opaques pos with
       | some m => toRgba0 m.r m.g m.b
       | none => (c :: rest).take ((c :: rest).length - after.length)) ++
        replaceTransparentNearestAux opaques fuel
          (pos + ((c :: rest).length - after.length)) after
    | none => c :: replaceTransparentNearestAux opaques fuel (pos + 1) rest

/-- Modelled from the spec: the gradient-fix step with the nearest-stop rule
in place of the code's first-stop rule. -/
def fixGradientStringNearest (bg : List Char) : Option (List Char) :=
  if ¬ (containsSub "gradient".toList bg = true ∧ transparentTest bg = true) then
    none
  else
    match opaqueColors bg with
    | [] => none
    | _ :: _ =>
      some (replaceTransparentNearestAux (opaqueColors bg) bg.length 0 bg)

/-- A gradient whose transparent-black stop is nearest to `rgb(9, 8, 7)`
while the first opaque stop is `rgb(1, 2, 3)`. -/
def gradientExample : List Char :=
  "linear-gradient(rgb(1, 2, 3), rgb(9, 8, 7), rgba(0, 0, 0, 0))".toList

/-- C8 counterexample: on `gradientExample` the code rewrites the
transparent-black stop with the channels of the FIRST opaque stop
`rgb(1, 2, 3)`, whereas the nearest opaque stop is `rgb(9, 8, 7)` — the
spec-modelled nearest-stop rewrite produces a different string, so the
claim's "nearest opaque stop" rule does not describe the code. -/
theorem fixGradientString_first_not_nearest :
    fixGradientString gradientExample =
      some "linear-gradient(rgb(1, 2, 3), rgb(9, 8, 7), rgba(1, 2, 3, 0))".toList ∧
      fixGradientStringNearest gradientExample =
        some "linear-gradient(rgb(1, 2, 3), rgb(9, 8, 7), rgba(9, 8, 7, 0))".toList := by
  exact ⟨rfl, rfl⟩

/-- C8 (amended): the gradient-fix step leaves every background-image string
containing no transparent-black stop unmodified; and for every gradient
string that contains such a stop together with at least one opaque color
stop, it rewrites each transparent-black stop to the FIRST opaque stop's
r/g/b channels (in string order) with alpha 0. -/
theorem fixGradientString_behavior :
    (∀ bg : List Char, transparentTest bg = false →
      fixGradientString bg = none) ∧
    (∀ (bg : List Char) (m : ColorMatch) (rest : List ColorMatch),
      containsSub "gradient".toList bg = true → transparentTest bg = true →
      opaqueColors bg = m :: rest →
      fixGradientString bg =
        some (replaceTransparent (toRgba0 m.r m.g m.b) bg)) := by
  constructor
  · intro bg ht
    have hcond : ¬ (containsSub "gradient".toList bg = true ∧
        transparentTest bg = true) := by
      rintro ⟨-, h2⟩
      rw [ht] at h2
      cases h2
    unfold fixGradientString
    rw [if_pos hcond]
  · intro bg m rest hg ht hop
    unfold fixGradientString
    rw [if_neg (not_not_intro ⟨hg, ht⟩), hop]

/-- Closed witness for the amended C8: a gradient with no transparent stop
is untouched; `gradientExample` is rewritten with its first opaque stop's
channels at alpha 0. -/
theorem fixGradientString_behavior_witness :
    transparentTest "linear-gradient(red, blue)".toList = false ∧
      fixGradientString "linear-gradient(red, blue)".toList = none ∧
      containsSub "gradient".toList gradientExample = true ∧
      transparentTest gradientExample = true ∧
      opaqueColors gradientExample =
        ⟨16, "rgb(1, 2, 3)".toList, ['1'], ['2'], ['3']⟩ ::
          [⟨30, "rgb(9, 8, 7)".toList, ['9'], ['8'], ['7']⟩] ∧
      fixGradientString gradientExample =
        some (replaceTransparent (toRgba0 ['1'] ['2'] ['3']) gradientExample) := by
  refine ⟨rfl, ?_, rfl, rfl, rfl, ?_⟩
  · exact fixGradientString_behavior.1 "linear-gradient(red, blue)".toList rfl
  · exact fixGradientString_behavior.2 gradientExample
      ⟨16, "rgb(1, 2, 3)".toList, ['1'], ['2'], ['3']⟩
      [⟨30, "rgb(9, 8, 7)".toList, ['9'], ['8'], ['7']⟩] rfl rfl rfl
